import Mathlib

/-!
Verification of the legal-dataset document loader.

This file gives a shallow embedding of `legal_document_loader.py`:
the text-cleaning regular-expression passes, the per-file processing of
the archive loader, the temporary-artifact lifecycle of `load_from_url`,
and the row pipeline of `load_from_csv`, together with theorems about
the behaviour of these functions.
-/

/-- Python values as they occur in this program: strings, byte strings,
the float/None cells a pandas column can hold, and integers. -/
inductive Value where
  | str (s : String)
  | bytes (b : List Nat)
  | none
  | int (n : Int)
deriving DecidableEq, Repr

/-- The Python exception classes raised by the embedded code. -/
inductive PyError where
  | typeError
  | valueError
  | attributeError
deriving DecidableEq, Repr

/-- First regex pass of `clean_text`, a fuel-indexed scanner for
Python's `re.sub` with pattern newline-run-then-space or
space-then-newline, replacement a single newline.  The scanner walks the
character list left to right; at a newline it matches greedily the whole
newline run and, when a space follows the run, consumes run and space
and emits one newline; at a space followed by a newline it consumes both
and emits one newline; otherwise it copies the character.  Fuel equal to
the list length always suffices since every step consumes at least one
character. -/
def sub1F : Nat → List Char → List Char
  | 0, l => l
  | _+1, [] => []
  | fuel+1, c :: cs =>
    if c = '\n' then
      let rest := cs.dropWhile (fun x => x = '\n')
      if rest.head? = some ' ' then '\n' :: sub1F fuel rest.tail
      else '\n' :: sub1F fuel cs
    else if c = ' ' then
      if cs.head? = some '\n' then '\n' :: sub1F fuel cs.tail
      else c :: sub1F fuel cs
    else c :: sub1F fuel cs

/-- Second regex pass of `clean_text`: every run of two or more newlines
is collapsed to exactly two newlines (pattern `\n`-run of length at
least two, replacement two newlines). -/
def sub2F : Nat → List Char → List Char
  | 0, l => l
  | _+1, [] => []
  | fuel+1, c :: cs =>
    if c = '\n' ∧ cs.head? = some '\n' then
      '\n' :: '\n' :: sub2F fuel (cs.tail.dropWhile (fun x => x = '\n'))
    else c :: sub2F fuel cs

/-- First regex substitution at its adequate fuel. -/
def sub1 (l : List Char) : List Char := sub1F l.length l

/-- Second regex substitution at its adequate fuel. -/
def sub2 (l : List Char) : List Char := sub2F l.length l

/-- The string-level cleaner: both regex passes in order, as applied by
`LegalDocumentLoader.clean_text` to a `str` argument. -/
def cleanString (s : String) : String := (sub2 (sub1 s.data)).asString

/-- Embedding of `LegalDocumentLoader.clean_text`.  The `isinstance`
guard admits `str` and `bytes`; a `str` goes through both regex passes;
a `bytes` value passes the guard but `re.sub` with a string pattern
raises `TypeError` on a bytes-like object; everything else returns the
empty string. -/
def clean_text : Value → Except PyError Value
  | .str s => .ok (.str (cleanString s))
  | .bytes _ => .error .typeError
  | _ => .ok (.str "")


/-- Python `line.strip(' ')`: remove leading and trailing space
characters (only U+0020), as used by `remove_new_lines`. -/
def stripSpaces (s : String) : String :=
  (((s.data.dropWhile (fun c => c = ' ')).reverse.dropWhile
    (fun c => c = ' ')).reverse).asString

/-- ASCII whitespace stripped by Python's bare `str.strip()`, applied to
the title line. -/
def isPySpace (c : Char) : Bool :=
  c = ' ' || c = '\t' || c = '\n' || c = '\r' || c = '\x0b' || c = '\x0c'

/-- Python `s.strip()` on the (ASCII) title line: remove leading and
trailing whitespace characters. -/
def titleStrip (s : String) : String :=
  (((s.data.dropWhile isPySpace).reverse.dropWhile isPySpace).reverse).asString

/-- Embedding of the module-level `remove_new_lines`: keep only the
string entries, strip spaces from each end of every such line, and drop
the lines that become empty; the stripped lines are kept in their
original order. -/
def remove_new_lines : List Value → List String
  | [] => []
  | .str s :: rest =>
    let t := stripSpaces s
    if t = "" then remove_new_lines rest else t :: remove_new_lines rest
  | _ :: rest => remove_new_lines rest

/-- Modelled from the spec: the `convert_to_utf8` helper of the missing
`utf8_encoder` module (the Encoding Normalizer).  The spec describes it
as decoding the latin-1 bytes produced by `text.encode('latin-1')` into
a universal text representation without loss, so the composite
`convert_to_utf8(text.encode('latin-1'))` is the identity on the
abstract text. -/
def convert_to_utf8 (s : String) : String := s

/-- A record emitted by `load_from_url`. -/
structure LegalDocument where
  Title : String
  Filename : String
  Text : String
deriving DecidableEq, Repr

/-- The body of the per-file `try` block of `load_from_url`, applied to
the `splitlines()` result of one `.txt` file: clean the line list; if it
is empty the file yields no document; otherwise the first remaining
line, fully stripped and re-encoded, is the title, and the remaining
lines joined with single newlines and re-encoded are the body.  The
`clean_text` regex cleaner is not invoked anywhere on this path. -/
def processTxtFile (filename : String) (lines : List String) : Option LegalDocument :=
  match remove_new_lines (lines.map Value.str) with
  | [] => Option.none
  | t :: rest =>
    some { Title := convert_to_utf8 (titleStrip t),
           Filename := filename,
           Text := convert_to_utf8 (String.intercalate "\n" rest) }

/-- One file encountered by the directory walk: its base name and the
result of reading it, `Except.error` standing for a read that raises
(the decode failure the spec describes, or any other per-file
exception). -/
structure ArchiveFile where
  name : String
  content : Except Unit (List String)
deriving Repr

/-- Python `file.endswith(".txt")` as tested by the directory walk,
expressed as a suffix check on the character list. -/
def endsWithTxt (s : String) : Bool := List.isSuffixOf ".txt".data s.data

/-- The directory-walk loop of `load_from_url`: non-`.txt` entries are
ignored; a `.txt` file whose read raises is logged (second component)
and skipped; a successfully read file contributes the document built by
`processTxtFile`, when any.  Walk order is preserved. -/
def load_files : List ArchiveFile → List LegalDocument × List String
  | [] => ([], [])
  | f :: rest =>
    let acc := load_files rest
    if endsWithTxt f.name then
      match f.content with
      | .error _ => (acc.fst, f.name :: acc.snd)
      | .ok lines =>
        match processTxtFile f.name lines with
        | some d => (d :: acc.fst, acc.snd)
        | Option.none => acc
    else acc

/-- Presence of the two temporary artifacts of `load_from_url` after the
call: the downloaded `legal_documents.zip` and the `legal_documents/`
extraction directory. -/
structure FS where
  zipExists : Bool
  dirExists : Bool
deriving DecidableEq, Repr

/-- Embedding of the artifact lifecycle of `load_from_url`.  The first
argument is the outcome of `requests.get` (raising before anything is
written), the second the outcome of opening and extracting the ZIP
(`zipfile.ZipFile` raises on a bad archive after the file was written
but before the directory is created).  On the success path the walk
cannot raise (every per-file exception is caught), and the final cleanup
removes the archive file and the extraction tree. -/
def load_from_url (download : Except Unit Unit)
    (extract : Except Unit (List ArchiveFile)) :
    Except Unit (List LegalDocument) × FS :=
  match download with
  | .error e => (.error e, ⟨false, false⟩)
  | .ok _ =>
    match extract with
    | .error e => (.error e, ⟨true, false⟩)
    | .ok files => (.ok (load_files files).fst, ⟨false, false⟩)

/-- One step of Python `str.title()` restricted to ASCII: a letter that
follows a letter is lowercased, a letter that follows a non-letter is
uppercased, every other character is kept and resets the word. -/
def pyTitleGo : Bool → List Char → List Char
  | _, [] => []
  | prev, c :: cs =>
    if c.isAlpha then
      (if prev then c.toLower else c.toUpper) :: pyTitleGo true cs
    else c :: pyTitleGo false cs

/-- Python `str.title()` on an ASCII string, as applied to each index
label by `load_from_csv`. -/
def pyTitle (s : String) : String := (pyTitleGo false s.data).asString

/-- The data `pd.read_csv(file_path, index_col=0)` hands to the loader:
the values of the index (first) column and the remaining named columns.
A CSV index parsed by pandas holds strings, numbers or NaN, never byte
strings. -/
structure Csv where
  labels : List Value
  cols : List (String × List Value)

/-- A record emitted by `load_from_csv`: the title-cased index label and
the cleaned text cell it was zipped with. -/
structure CsvDoc where
  Title : String
  Text : Value
deriving DecidableEq, Repr

/-- Truth of `isinstance(x, (str, bytes))`. -/
def isTextLike : Value → Bool
  | .str _ => true
  | .bytes _ => true
  | _ => false

/-- Truth of `isinstance(x, str)`. -/
def isStr : Value → Bool
  | .str _ => true
  | _ => false

/-- Truth of `doc and isinstance(doc, str)`: a non-empty string. -/
def truthyStr : Value → Bool
  | .str s => !(s == "")
  | _ => false

/-- The lambda applied to the `Text` column: `clean_text(x)` for a
text-like cell, the empty string otherwise. -/
def clean_cell (x : Value) : Except PyError Value :=
  if isTextLike x then clean_text x else .ok (.str "")

/-- The final loop of `load_from_csv`: each zipped pair contributes a
record whose title is `name_item.title()`; a label that is not a string
(an integer or NaN index value) has no `title` attribute and the loop
raises `AttributeError`. -/
def build_docs : List (Value × Value) → Except PyError (List CsvDoc)
  | [] => .ok []
  | (.str name, t) :: rest =>
    match build_docs rest with
    | .error e => .error e
    | .ok ds => .ok ({ Title := pyTitle name, Text := t } :: ds)
  | (_, _) :: _ => .error .attributeError

/-- Embedding of `LegalDocumentLoader.load_from_csv`: take the index
labels, raise `ValueError` when no `Text` column exists, clean every
`Text` cell, drop the cleaned values that are not non-empty strings, and
zip the unfiltered label list positionally with the filtered text
list. -/
def load_from_csv (csv : Csv) : Except PyError (List CsvDoc) :=
  match csv.cols.lookup "Text" with
  | Option.none => .error .valueError
  | some texts =>
    match texts.mapM clean_cell with
    | .error e => .error e
    | .ok cleaned => build_docs (csv.labels.zip (cleaned.filter truthyStr))


/-- Character lists in which no space character sits immediately next to
a newline, on either side.  On such inputs the first regex pass finds no
match. -/
def noAdj : List Char → Bool
  | a :: b :: rest =>
    if (a = ' ' ∧ b = '\n') ∨ (a = '\n' ∧ b = ' ') then false
    else noAdj (b :: rest)
  | _ => true

/-- Character lists containing no run of three or more newlines; the
second regex pass leaves exactly these unchanged. -/
def noTriple : List Char → Bool
  | a :: b :: c :: rest =>
    if a = '\n' ∧ b = '\n' ∧ c = '\n' then false
    else noTriple (b :: c :: rest)
  | _ => true

theorem dropWhile_length_le {α : Type} (p : α → Bool) :
    ∀ l : List α, (l.dropWhile p).length ≤ l.length := by
  intro l
  induction l with
  | nil => simp
  | cons x xs ih =>
    rw [List.dropWhile_cons]
    split
    · exact Nat.le_trans ih (Nat.le_succ _)
    · exact Nat.le_refl _

theorem head_dropWhile_false {α : Type} (p : α → Bool) :
    ∀ (l : List α) (a : α), (l.dropWhile p).head? = some a → p a = false := by
  intro l
  induction l with
  | nil => intro a h; simp at h
  | cons x xs ih =>
    intro a h
    rw [List.dropWhile_cons] at h
    by_cases hx : p x = true
    · exact ih a (by simpa [hx] using h)
    · simp [hx] at h
      subst h
      simpa [Bool.not_eq_true] using hx

theorem noAdj_tail {c : Char} {l : List Char} (h : noAdj (c :: l) = true) :
    noAdj l = true := by
  cases l with
  | nil => rfl
  | cons b rest =>
    rw [noAdj] at h
    split at h
    · exact absurd h (by simp)
    · exact h

theorem noAdj_pair {a b : Char} {rest : List Char}
    (h : noAdj (a :: b :: rest) = true) :
    ¬((a = ' ' ∧ b = '\n') ∨ (a = '\n' ∧ b = ' ')) := by
  intro hbad
  rw [noAdj, if_pos hbad] at h
  exact absurd h (by simp)

theorem noAdj_dropWhile (p : Char → Bool) :
    ∀ l : List Char, noAdj l = true → noAdj (l.dropWhile p) = true := by
  intro l
  induction l with
  | nil => intro h; exact h
  | cons x xs ih =>
    intro h
    rw [List.dropWhile_cons]
    split
    · exact ih (noAdj_tail h)
    · exact h

theorem noAdj_nl_dropWhile_head :
    ∀ cs : List Char, noAdj ('\n' :: cs) = true →
      (cs.dropWhile (fun x => x = '\n')).head? = some ' ' → False := by
  intro cs
  induction cs with
  | nil => intro _ h; simp at h
  | cons x xs ih =>
    intro hna h
    rw [List.dropWhile_cons] at h
    by_cases hx : x = '\n'
    · rw [if_pos (by simp [hx])] at h
      exact ih (by simpa [hx] using noAdj_tail hna) h
    · rw [if_neg (by simp [hx])] at h
      simp at h
      exact noAdj_pair hna (Or.inr ⟨rfl, h⟩)

theorem noTriple_tail {c : Char} {l : List Char} (h : noTriple (c :: l) = true) :
    noTriple l = true := by
  match l with
  | [] => rfl
  | [_] => rfl
  | a :: b :: rest =>
    rw [noTriple] at h
    split at h
    · exact absurd h (by simp)
    · exact h

theorem noTriple_cons (c : Char) (w : List Char) (hw : noTriple w = true)
    (h : ¬(c = '\n' ∧ w.head? = some '\n' ∧ w.tail.head? = some '\n')) :
    noTriple (c :: w) = true := by
  match w with
  | [] => rfl
  | [_] => rfl
  | a :: b :: rest =>
    rw [noTriple]
    rw [if_neg (by simpa using h)]
    exact hw

theorem noAdj_cons (c : Char) (w : List Char) (hw : noAdj w = true)
    (h : ∀ a, w.head? = some a → ¬((c = ' ' ∧ a = '\n') ∨ (c = '\n' ∧ a = ' '))) :
    noAdj (c :: w) = true := by
  match w with
  | [] => rfl
  | a :: rest =>
    rw [noAdj]
    rw [if_neg (h a rfl)]
    exact hw

theorem sub2F_head (fuel : Nat) (l : List Char) :
    (sub2F fuel l).head? = l.head? := by
  match fuel, l with
  | 0, _ => rfl
  | _+1, [] => rfl
  | fuel+1, c :: cs =>
    rw [sub2F]
    split
    next hc => simp [hc.1]
    next => simp

theorem sub1F_fixed :
    ∀ (fuel : Nat) (l : List Char), l.length ≤ fuel → noAdj l = true →
      sub1F fuel l = l := by
  intro fuel
  induction fuel with
  | zero => intro l _ _; rfl
  | succ fuel ih =>
    intro l hlen hna
    match l with
    | [] => rfl
    | c :: cs =>
      have hcs : cs.length ≤ fuel := Nat.succ_le_succ_iff.mp (by simpa using hlen)
      by_cases hc : c = '\n'
      · subst hc
        have hhead : ¬ ((cs.dropWhile (fun x => x = '\n')).head? = some ' ') :=
          fun h => noAdj_nl_dropWhile_head cs hna h
        simp only [sub1F, if_pos rfl]
        rw [if_neg hhead]
        exact congrArg _ (ih cs hcs (noAdj_tail hna))
      · by_cases hs : c = ' '
        · subst hs
          have hhead : ¬ (cs.head? = some '\n') := by
            intro h
            match cs, h with
            | a :: rest, h =>
              have ha : a = '\n' := by simpa using h
              exact noAdj_pair hna (Or.inl ⟨rfl, ha⟩)
          simp only [sub1F, if_neg hc, if_pos rfl]
          rw [if_neg hhead]
          exact congrArg _ (ih cs hcs (noAdj_tail hna))
        · simp only [sub1F, if_neg hc, if_neg hs]
          exact congrArg _ (ih cs hcs (noAdj_tail hna))

theorem sub2F_fixed :
    ∀ (fuel : Nat) (l : List Char), l.length ≤ fuel → noTriple l = true →
      sub2F fuel l = l := by
  intro fuel
  induction fuel with
  | zero => intro l _ _; rfl
  | succ fuel ih =>
    intro l hlen hnt
    match l with
    | [] => rfl
    | c :: cs =>
      have hcs : cs.length ≤ fuel := Nat.succ_le_succ_iff.mp (by simpa using hlen)
      by_cases h : c = '\n' ∧ cs.head? = some '\n'
      · obtain ⟨hc, hcs2⟩ := h
        subst hc
        match cs, hcs2 with
        | a :: cs2, hcs2 =>
          have ha : a = '\n' := by simpa using hcs2
          subst ha
          have h3 : ¬ (cs2.head? = some '\n') := by
            intro h3
            match cs2, h3 with
            | b :: rest, h3 =>
              have hb : b = '\n' := by simpa using h3
              rw [noTriple, if_pos ⟨rfl, rfl, hb⟩] at hnt
              exact absurd hnt (by simp)
          have hdrop : cs2.dropWhile (fun x => x = '\n') = cs2 := by
            match cs2, h3 with
            | [], _ => rfl
            | b :: rest, h3 =>
              have hb : ¬ (b = '\n') := fun hb => h3 (by simp [hb])
              rw [List.dropWhile_cons, if_neg (by simpa using hb)]
          rw [sub2F, if_pos ⟨rfl, by simp⟩]
          simp only [List.tail_cons, hdrop]
          have hnt2 : noTriple cs2 = true := noTriple_tail (noTriple_tail hnt)
          have hlen2 : cs2.length ≤ fuel := Nat.le_trans (by simp) hcs
          rw [ih cs2 hlen2 hnt2]
      · rw [sub2F, if_neg h]
        exact congrArg _ (ih cs hcs (noTriple_tail hnt))

theorem sub2F_noTriple :
    ∀ (fuel : Nat) (l : List Char), l.length ≤ fuel →
      noTriple (sub2F fuel l) = true := by
  intro fuel
  induction fuel with
  | zero =>
    intro l hlen
    have : l = [] := List.length_eq_zero.mp (Nat.le_zero.mp hlen)
    subst this; rfl
  | succ fuel ih =>
    intro l hlen
    match l with
    | [] => rfl
    | c :: cs =>
      have hcs : cs.length ≤ fuel := Nat.succ_le_succ_iff.mp (by simpa using hlen)
      by_cases h : c = '\n' ∧ cs.head? = some '\n'
      · obtain ⟨hc, hcs2⟩ := h
        subst hc
        match cs, hcs2 with
        | a :: cs2, hcs2 =>
          have ha : a = '\n' := by simpa using hcs2
          subst ha
          have hlen2 : (cs2.dropWhile (fun x => x = '\n')).length ≤ fuel :=
            Nat.le_trans (dropWhile_length_le _ cs2)
              (Nat.le_trans (Nat.le_succ _) hcs)
          have hw : noTriple (sub2F fuel (cs2.dropWhile (fun x => x = '\n'))) = true :=
            ih _ hlen2
          have hwh : ¬ ((sub2F fuel (cs2.dropWhile (fun x => x = '\n'))).head?
              = some '\n') := by
            intro hx
            rw [sub2F_head] at hx
            have := head_dropWhile_false _ _ _ hx
            simp at this
          rw [sub2F, if_pos ⟨rfl, by simp⟩]
          simp only [List.tail_cons]
          have h1 : noTriple ('\n' :: sub2F fuel (cs2.dropWhile (fun x => x = '\n')))
              = true :=
            noTriple_cons _ _ hw (fun hp => hwh hp.2.1)
          exact noTriple_cons _ _ h1 (fun hp => hwh hp.2.2)
      · rw [sub2F, if_neg h]
        refine noTriple_cons _ _ (ih cs hcs) (fun hp => ?_)
        rw [sub2F_head] at hp
        exact h ⟨hp.1, hp.2.1⟩

theorem sub2F_noAdj :
    ∀ (fuel : Nat) (l : List Char), l.length ≤ fuel → noAdj l = true →
      noAdj (sub2F fuel l) = true := by
  intro fuel
  induction fuel with
  | zero => intro l _ hna; exact hna
  | succ fuel ih =>
    intro l hlen hna
    match l with
    | [] => rfl
    | c :: cs =>
      have hcs : cs.length ≤ fuel := Nat.succ_le_succ_iff.mp (by simpa using hlen)
      by_cases h : c = '\n' ∧ cs.head? = some '\n'
      · obtain ⟨hc, hcs2⟩ := h
        subst hc
        match cs, hcs2 with
        | a :: cs2, hcs2 =>
          have ha : a = '\n' := by simpa using hcs2
          subst ha
          have hlen2 : (cs2.dropWhile (fun x => x = '\n')).length ≤ fuel :=
            Nat.le_trans (dropWhile_length_le _ cs2)
              (Nat.le_trans (Nat.le_succ _) hcs)
          have hr : noAdj (cs2.dropWhile (fun x => x = '\n')) = true :=
            noAdj_dropWhile _ cs2 (noAdj_tail (noAdj_tail hna))
          have hw : noAdj (sub2F fuel (cs2.dropWhile (fun x => x = '\n'))) = true :=
            ih _ hlen2 hr
          have hwh : ¬ ((sub2F fuel (cs2.dropWhile (fun x => x = '\n'))).head?
              = some ' ') := by
            intro hx
            rw [sub2F_head] at hx
            exact noAdj_nl_dropWhile_head cs2 (noAdj_tail hna) hx
          rw [sub2F, if_pos ⟨rfl, by simp⟩]
          simp only [List.tail_cons]
          have h1 : noAdj ('\n' :: sub2F fuel (cs2.dropWhile (fun x => x = '\n')))
              = true := by
            refine noAdj_cons _ _ hw (fun b hb hbad => ?_)
            rcases hbad with ⟨hfalse, _⟩ | ⟨_, hb2⟩
            · exact absurd hfalse (by decide)
            · subst hb2; exact hwh hb
          refine noAdj_cons _ _ h1 (fun b hb hbad => ?_)
          have hb' : b = '\n' := by simpa using hb.symm
          subst hb'
          rcases hbad with ⟨hfalse, _⟩ | ⟨_, hfalse⟩ <;> exact absurd hfalse (by decide)
      · rw [sub2F, if_neg h]
        refine noAdj_cons _ _ (ih cs hcs (noAdj_tail hna)) (fun b hb hbad => ?_)
        rw [sub2F_head] at hb
        match cs, hb with
        | a :: cs', hb =>
          have : a = b := by simpa using hb
          subst this
          exact noAdj_pair hna hbad

theorem data_asString (l : List Char) : (l.asString).data = l := rfl

theorem sub1_fixed {l : List Char} (h : noAdj l = true) : sub1 l = l :=
  sub1F_fixed _ _ (Nat.le_refl _) h

theorem sub2_fixed {l : List Char} (h : noTriple l = true) : sub2 l = l :=
  sub2F_fixed _ _ (Nat.le_refl _) h

theorem sub2_noTriple (l : List Char) : noTriple (sub2 l) = true :=
  sub2F_noTriple _ _ (Nat.le_refl _)

theorem sub2_noAdj {l : List Char} (h : noAdj l = true) : noAdj (sub2 l) = true :=
  sub2F_noAdj _ _ (Nat.le_refl _) h

/-- C4 (amended): the cleaner is not idempotent on all strings, but it
is idempotent on every string in which no space character is
immediately adjacent to a newline: there the first pass is the identity,
and the second pass collapses newline runs once and for all. -/
theorem c4_clean_text_idempotent (s : String) (h : noAdj s.data = true) :
    cleanString (cleanString s) = cleanString s := by
  unfold cleanString
  rw [data_asString, sub1_fixed h, sub1_fixed (sub2_noAdj h),
    sub2_fixed (sub2_noTriple s.data)]

/-- C4 counterexample: two spaces before a newline defeat idempotence;
the first application of the cleaner turns a double space before a
newline into a single space before a newline, which a second
application then removes: cleanString twice on that input differs from
cleanString once. -/
theorem c4_counterexample :
    cleanString (cleanString "  \n") ≠ cleanString "  \n" := by decide

/-- C4 witness: the no-adjacent-space condition holds of an ordinary
paragraph string and the theorem applies to it. -/
theorem c4_witness :
    noAdj ("a\n\n\n\nb").data = true
    ∧ cleanString (cleanString "a\n\n\n\nb") = cleanString "a\n\n\n\nb" :=
  ⟨by decide, c4_clean_text_idempotent "a\n\n\n\nb" (by decide)⟩

/-- C1 (amended): for every decodable .txt file, every line that is
empty after stripping space characters is dropped, and the surviving
lines are kept in original order but stripped of leading and trailing
spaces — not verbatim; the first survivor, additionally stripped of all
surrounding whitespace, becomes Title and the remaining survivors joined
with single newlines become Text, the regex Text Cleaner being applied
nowhere on this path; the doc1.txt example yields exactly the record
with Title "Title Line", Filename "doc1.txt" and Text
"Body line 1\nBody line 2". -/
theorem c1_archive_per_file :
    (∀ lines : List String,
      remove_new_lines (lines.map Value.str)
        = ((lines.map stripSpaces).filter (fun t => !(t == ""))))
    ∧ processTxtFile "doc1.txt" ["Title Line", "", "Body line 1", "Body line 2"]
        = some ⟨"Title Line", "doc1.txt", "Body line 1\nBody line 2"⟩ := by
  constructor
  · intro lines
    induction lines with
    | nil => rfl
    | cons s rest ih =>
      simp only [List.map_cons, remove_new_lines, List.filter_cons]
      by_cases h : stripSpaces s = ""
      · simp [h, ih]
      · simp [h, ih]
  · rfl

/-- C1 counterexample: a non-blank line carrying surrounding spaces is
not kept as-is; `remove_new_lines` keeps it space-stripped. -/
theorem c1_counterexample :
    remove_new_lines [Value.str " body "] = ["body"]
    ∧ remove_new_lines [Value.str " body "] ≠ [" body "] :=
  ⟨rfl, by decide⟩

/-- C2: the cleaned texts are filtered on their own and then zipped
positionally with the unfiltered title list; the alpha/beta example
returns exactly one record, and with an empty-text row in the middle the
following titles shift onto the wrong texts. -/
theorem c2_tabular_positional_pairing :
    load_from_csv ⟨[.str "alpha", .str "beta"],
      [("Text", [.str "Hello\n\nWorld", .none])]⟩
      = .ok [⟨"Alpha", .str "Hello\n\nWorld"⟩]
    ∧ load_from_csv ⟨[.str "alpha", .str "beta", .str "gamma"],
      [("Text", [.str "first", .none, .str "third"])]⟩
      = .ok [⟨"Alpha", .str "first"⟩, ⟨"Beta", .str "third"⟩]
    ∧ (∀ (csv : Csv) (texts cleaned : List Value),
      csv.cols.lookup "Text" = some texts →
      texts.mapM clean_cell = .ok cleaned →
      load_from_csv csv = build_docs (csv.labels.zip (cleaned.filter truthyStr))) := by
  refine ⟨rfl, rfl, ?_⟩
  intro csv texts cleaned hl hm
  unfold load_from_csv
  rw [hl]
  dsimp only
  rw [hm]

/-- C2 witness: the alpha/beta instance of the zip characterization,
with both hypotheses discharged by evaluation. -/
theorem c2_witness :
    load_from_csv ⟨[.str "alpha", .str "beta"],
      [("Text", [.str "Hello\n\nWorld", .none])]⟩
      = build_docs (([Value.str "alpha", Value.str "beta"]).zip
        (([Value.str "Hello\n\nWorld", Value.str ""]).filter truthyStr)) :=
  c2_tabular_positional_pairing.2.2
    ⟨[.str "alpha", .str "beta"], [("Text", [.str "Hello\n\nWorld", .none])]⟩
    [.str "Hello\n\nWorld", .none] [.str "Hello\n\nWorld", .str ""] rfl rfl

/-- C3 (amended): the cleaner examples evaluate as the code does:
"a\n\n\n\nb" becomes "a\n\nb", the integer 42 and the empty string map
to the empty string, but "a \n b" becomes "a\n b" — the space-newline
match consumes the space before the newline and scanning resumes after
the replacement, so the space after the newline survives. -/
theorem c3_cleaner_examples :
    clean_text (Value.str "a\n\n\n\nb") = .ok (.str "a\n\nb")
    ∧ clean_text (Value.str "a \n b") = .ok (.str "a\n b")
    ∧ clean_text (Value.int 42) = .ok (.str "")
    ∧ clean_text (Value.str "") = .ok (.str "") :=
  ⟨rfl, rfl, rfl, rfl⟩

/-- C3 counterexample: clean_text("a \n b") is "a\n b", not the "a\nb"
the claim states. -/
theorem c3_counterexample :
    clean_text (Value.str "a \n b") = .ok (.str "a\n b")
    ∧ Value.str "a\n b" ≠ Value.str "a\nb" :=
  ⟨rfl, by decide⟩

/-- C5 (amended): clean_text returns without raising on every input
that is not a byte sequence — strings are cleaned and every non-text
value yields the empty string — but a bytes input passes the isinstance
guard and then re.sub raises TypeError, because the pattern is a str
used on a bytes-like object. -/
theorem c5_totality :
    (∀ s : String, clean_text (Value.str s) = .ok (.str (cleanString s)))
    ∧ (∀ v : Value, isTextLike v = false → clean_text v = .ok (.str ""))
    ∧ (∀ b : List Nat, clean_text (Value.bytes b) = .error .typeError) := by
  refine ⟨fun s => rfl, ?_, fun b => rfl⟩
  intro v hv
  cases v with
  | str s => exact absurd hv (by simp [isTextLike])
  | bytes b => exact absurd hv (by simp [isTextLike])
  | none => rfl
  | int n => rfl

/-- C5 witness: the non-text branch applied to the None value. -/
theorem c5_witness :
    isTextLike Value.none = false ∧ clean_text Value.none = .ok (.str "") :=
  ⟨rfl, c5_totality.2.1 Value.none rfl⟩

/-- C5 counterexample: a byte-sequence input does not return cleaned
text; it raises TypeError. -/
theorem c5_counterexample :
    clean_text (Value.bytes [97]) = .error .typeError := rfl

/-- C6 (amended): after a call of the archive loader that returns
successfully neither the temporary archive file nor the extraction
directory exists, and a failure of the download itself writes nothing;
but when the call fails after the download — the archive cannot be
opened or extracted — the temporary archive file is left on disk,
because the cleanup code only runs after the directory walk. -/
theorem c6_cleanup :
    (∀ (dl : Except Unit Unit) (ex : Except Unit (List ArchiveFile))
      (docs : List LegalDocument) (fs : FS),
      load_from_url dl ex = (.ok docs, fs) →
      fs.zipExists = false ∧ fs.dirExists = false)
    ∧ (∀ (ex : Except Unit (List ArchiveFile))
      (out : Except Unit (List LegalDocument)) (fs : FS),
      load_from_url (.error ()) ex = (out, fs) →
      fs.zipExists = false ∧ fs.dirExists = false)
    ∧ load_from_url (.ok ()) (.error ()) = (.error (), ⟨true, false⟩) := by
  refine ⟨?_, ?_, rfl⟩
  · intro dl ex docs fs h
    match dl with
    | .error e => simp [load_from_url] at h
    | .ok _ =>
      match ex with
      | .error e => simp [load_from_url] at h
      | .ok files =>
        simp [load_from_url] at h
        rw [← h.2]
        exact ⟨rfl, rfl⟩
  · intro ex out fs h
    simp [load_from_url] at h
    rw [← h.2]
    exact ⟨rfl, rfl⟩

/-- C6 witness: a successful call leaves both artifact flags false. -/
theorem c6_witness :
    FS.zipExists ⟨false, false⟩ = false ∧ FS.dirExists ⟨false, false⟩ = false :=
  c6_cleanup.1 (.ok ()) (.ok []) [] ⟨false, false⟩ rfl

/-- C6 counterexample: when extraction of the downloaded archive fails,
the call returns with the temporary archive file still on disk. -/
theorem c6_counterexample :
    (load_from_url (.ok ()) (.error ())).snd.zipExists = true := rfl

theorem lookup_none_of_not_mem {β : Type} (k : String) :
    ∀ l : List (String × β), k ∉ l.map Prod.fst → l.lookup k = Option.none := by
  intro l
  induction l with
  | nil => intro _; rfl
  | cons p rest ih =>
    intro h
    match p with
    | (a, b) =>
      have h1 : ¬ (k = a) := fun he => h (by simp [he])
      have h2 : k ∉ rest.map Prod.fst := fun hm => h (by simp [hm])
      have hba : (k == a) = false := by simpa using h1
      rw [List.lookup, hba]
      exact ih h2

/-- C8: a CSV whose columns do not include one literally named Text
makes load_from_csv raise ValueError; no document list is returned. -/
theorem c8_missing_text_column :
    ∀ csv : Csv, "Text" ∉ csv.cols.map Prod.fst →
      load_from_csv csv = .error .valueError := by
  intro csv h
  unfold load_from_csv
  rw [lookup_none_of_not_mem _ _ h]

/-- C8 witness: a CSV with only a Body column raises ValueError. -/
theorem c8_witness :
    "Text" ∉ ([("Body", ([] : List Value))].map Prod.fst)
    ∧ load_from_csv ⟨[], [("Body", [])]⟩ = .error .valueError :=
  ⟨by decide, c8_missing_text_column ⟨[], [("Body", [])]⟩ (by decide)⟩

/-- C7: a .txt file whose read raises contributes no record, its path is
reported, and the documents produced are exactly those of the same walk
without that file — a single bad file never aborts the load. -/
theorem c7_per_file_recovery :
    ∀ (pre post : List ArchiveFile) (f : ArchiveFile),
      endsWithTxt f.name = true → f.content = .error () →
      (load_files (pre ++ f :: post)).fst = (load_files (pre ++ post)).fst
      ∧ f.name ∈ (load_files (pre ++ f :: post)).snd := by
  intro pre post f htxt herr
  induction pre with
  | nil =>
    constructor
    · simp [load_files, htxt, herr]
    · simp [load_files, htxt, herr]
  | cons p pre ih =>
    obtain ⟨ih1, ih2⟩ := ih
    by_cases hp : endsWithTxt p.name = true
    · rcases hc : p.content with e | lines
      · constructor
        · simp only [List.cons_append, load_files, hp, if_true, hc]
          exact ih1
        · simp only [List.cons_append, load_files, hp, if_true, hc]
          exact List.mem_cons_of_mem _ ih2
      · rcases hd : processTxtFile p.name lines with _ | d
        · constructor
          · simp only [List.cons_append, load_files, hp, if_true, hc, hd]
            exact ih1
          · simp only [List.cons_append, load_files, hp, if_true, hc, hd]
            exact ih2
        · constructor
          · simp only [List.cons_append, load_files, hp, if_true, hc, hd]
            simpa using ih1
          · simp only [List.cons_append, load_files, hp, if_true, hc, hd]
            exact ih2
    · constructor
      · simp only [List.cons_append, load_files, hp, if_false, Bool.false_eq_true]
        exact ih1
      · simp only [List.cons_append, load_files, hp, if_false, Bool.false_eq_true]
        exact ih2

/-- C7 witness: with a failing bad.txt in front of a good file, the
output equals that of the good file alone and bad.txt is reported. -/
theorem c7_witness :
    (load_files ([] ++ ArchiveFile.mk "bad.txt" (.error ())
        :: [ArchiveFile.mk "good.txt" (.ok ["T", "body"])])).fst
      = (load_files ([] ++ [ArchiveFile.mk "good.txt" (.ok ["T", "body"])])).fst
    ∧ "bad.txt" ∈ (load_files ([] ++ ArchiveFile.mk "bad.txt" (.error ())
        :: [ArchiveFile.mk "good.txt" (.ok ["T", "body"])])).snd :=
  c7_per_file_recovery [] [⟨"good.txt", .ok ["T", "body"]⟩]
    ⟨"bad.txt", .error ()⟩ (by decide) rfl

theorem processTxtFile_ne_nil {n : String} {ls : List String} {d : LegalDocument}
    (h : processTxtFile n ls = some d) :
    remove_new_lines (ls.map Value.str) ≠ [] := by
  intro hnil
  unfold processTxtFile at h
  rw [hnil] at h
  exact absurd h (by simp)

theorem build_docs_mem :
    ∀ (ps : List (Value × Value)) (ds : List CsvDoc),
      build_docs ps = .ok ds → ∀ d, d ∈ ds →
      ∃ p, p ∈ ps ∧ d.Text = p.snd
        ∧ ∃ n, p.fst = Value.str n ∧ d.Title = pyTitle n := by
  intro ps
  induction ps with
  | nil =>
    intro ds h d hd
    rw [build_docs] at h
    have hds : ds = [] := by
      cases h; rfl
    subst hds
    exact absurd hd (by simp)
  | cons q rest ih =>
    intro ds h d hd
    match q with
    | (Value.str n, t) =>
      rw [build_docs] at h
      rcases hb : build_docs rest with e | ds'
      · rw [hb] at h; exact absurd h (by simp)
      · rw [hb] at h
        have hds : ds = ⟨pyTitle n, t⟩ :: ds' := by
          cases h; rfl
        subst hds
        rcases List.mem_cons.mp hd with he | hm
        · subst he
          exact ⟨(Value.str n, t), List.mem_cons_self _ _, rfl, n, rfl, rfl⟩
        · obtain ⟨p, hp, hrest⟩ := ih ds' hb d hm
          exact ⟨p, List.mem_cons_of_mem _ hp, hrest⟩
    | (Value.bytes b, t) =>
      have he : build_docs ((Value.bytes b, t) :: rest) = .error .attributeError := rfl
      rw [he] at h
      exact absurd h (by simp)
    | (Value.none, t) =>
      have he : build_docs ((Value.none, t) :: rest) = .error .attributeError := rfl
      rw [he] at h
      exact absurd h (by simp)
    | (Value.int n, t) =>
      have he : build_docs ((Value.int n, t) :: rest) = .error .attributeError := rfl
      rw [he] at h
      exact absurd h (by simp)

/-- C9: a document of the archive loader arises only from a .txt file
that was read successfully and whose line list survives blank-line
removal non-empty (its head becoming the title), and every record of the
tabular loader carries a non-empty string text. -/
theorem c9_emission_invariant :
    (∀ (files : List ArchiveFile) (d : LegalDocument),
      d ∈ (load_files files).fst →
      ∃ f, f ∈ files ∧ endsWithTxt f.name = true
        ∧ ∃ lines, f.content = .ok lines
          ∧ remove_new_lines (lines.map Value.str) ≠ []
          ∧ processTxtFile f.name lines = some d)
    ∧ (∀ (csv : Csv) (docs : List CsvDoc),
      load_from_csv csv = .ok docs →
      ∀ d, d ∈ docs → ∃ s, d.Text = Value.str s ∧ s ≠ "") := by
  constructor
  · intro files
    induction files with
    | nil => intro d h; exact absurd h (by simp [load_files])
    | cons f rest ih =>
      intro d h
      by_cases hf : endsWithTxt f.name = true
      · rcases hc : f.content with e | lines
        · simp only [load_files, hf, if_true, hc] at h
          obtain ⟨g, hg, hrest⟩ := ih d h
          exact ⟨g, List.mem_cons_of_mem _ hg, hrest⟩
        · rcases hd : processTxtFile f.name lines with _ | d0
          · simp only [load_files, hf, if_true, hc, hd] at h
            obtain ⟨g, hg, hrest⟩ := ih d h
            exact ⟨g, List.mem_cons_of_mem _ hg, hrest⟩
          · simp only [load_files, hf, if_true, hc, hd] at h
            rcases List.mem_cons.mp h with he | hm
            · subst he
              exact ⟨f, List.mem_cons_self _ _, hf, lines, hc,
                processTxtFile_ne_nil hd, hd⟩
            · obtain ⟨g, hg, hrest⟩ := ih d hm
              exact ⟨g, List.mem_cons_of_mem _ hg, hrest⟩
      · simp only [load_files, hf, if_false, Bool.false_eq_true] at h
        obtain ⟨g, hg, hrest⟩ := ih d h
        exact ⟨g, List.mem_cons_of_mem _ hg, hrest⟩
  · intro csv docs h d hd
    unfold load_from_csv at h
    rcases hl : csv.cols.lookup "Text" with _ | texts
    · rw [hl] at h; exact absurd h (by simp)
    · rw [hl] at h
      dsimp only at h
      rcases hm : texts.mapM clean_cell with e | cleaned
      · rw [hm] at h; exact absurd h (by simp)
      · rw [hm] at h
        obtain ⟨p, hp, hText, n, hfst, hTitle⟩ := build_docs_mem _ _ h d hd
        have hsnd : p.snd ∈ cleaned.filter truthyStr := (List.of_mem_zip hp).2
        have htr : truthyStr p.snd = true := (List.mem_filter.mp hsnd).2
        cases hv : p.snd with
        | str s =>
          refine ⟨s, by rw [hText, hv], ?_⟩
          rw [hv] at htr
          simpa [truthyStr] using htr
        | bytes b => rw [hv] at htr; simp [truthyStr] at htr
        | none => rw [hv] at htr; simp [truthyStr] at htr
        | int m => rw [hv] at htr; simp [truthyStr] at htr

/-- C9 witness: the single document of a one-file archive instantiates
the archive half of the invariant. -/
theorem c9_witness :
    ∃ f, f ∈ [ArchiveFile.mk "a.txt" (.ok ["T"])]
      ∧ endsWithTxt f.name = true
      ∧ ∃ lines, f.content = .ok lines
        ∧ remove_new_lines (lines.map Value.str) ≠ []
        ∧ processTxtFile f.name lines = some ⟨"T", "a.txt", ""⟩ :=
  c9_emission_invariant.1 [⟨"a.txt", .ok ["T"]⟩] ⟨"T", "a.txt", ""⟩ (by decide)

theorem build_docs_err :
    ∀ ps : List (Value × Value),
      (∃ p, p ∈ ps ∧ isStr p.fst = false) →
      build_docs ps = .error .attributeError := by
  intro ps
  induction ps with
  | nil =>
    intro h
    obtain ⟨p, hp, _⟩ := h
    exact absurd hp (by simp)
  | cons q rest ih =>
    intro h
    obtain ⟨p, hp, hstr⟩ := h
    match q with
    | (Value.str n, t) =>
      rcases List.mem_cons.mp hp with he | hm
      · rw [he] at hstr
        exact absurd hstr (by simp [isStr])
      · rw [build_docs, ih ⟨p, hm, hstr⟩]
    | (Value.bytes b, t) => rfl
    | (Value.none, t) => rfl
    | (Value.int n, t) => rfl

/-- C10 (implicit claim): every record load_from_csv returns has as its
Title the title-cased form of a string index label, and whenever the
positional pairing of labels with surviving cleaned texts contains a
non-string label the call raises AttributeError instead of returning a
list — the labels are title-cased without any type check. -/
theorem c10_title_typing :
    (∀ (csv : Csv) (docs : List CsvDoc), load_from_csv csv = .ok docs →
      ∀ d, d ∈ docs → ∃ s, Value.str s ∈ csv.labels ∧ d.Title = pyTitle s)
    ∧ (∀ (csv : Csv) (texts cleaned : List Value),
      csv.cols.lookup "Text" = some texts →
      texts.mapM clean_cell = .ok cleaned →
      (∃ p, p ∈ csv.labels.zip (cleaned.filter truthyStr) ∧ isStr p.fst = false) →
      load_from_csv csv = .error .attributeError) := by
  constructor
  · intro csv docs h d hd
    unfold load_from_csv at h
    rcases hl : csv.cols.lookup "Text" with _ | texts
    · rw [hl] at h; exact absurd h (by simp)
    · rw [hl] at h
      dsimp only at h
      rcases hm : texts.mapM clean_cell with e | cleaned
      · rw [hm] at h; exact absurd h (by simp)
      · rw [hm] at h
        obtain ⟨p, hp, _, n, hfst, hTitle⟩ := build_docs_mem _ _ h d hd
        refine ⟨n, ?_, hTitle⟩
        rw [← hfst]
        exact (List.of_mem_zip hp).1
  · intro csv texts cleaned hl hm hex
    unfold load_from_csv
    rw [hl]
    dsimp only
    rw [hm]
    exact build_docs_err _ hex

/-- C10 witness: a CSV whose index holds the integer 1 paired with a
surviving text raises AttributeError. -/
theorem c10_witness :
    load_from_csv ⟨[.int 1], [("Text", [.str "x"])]⟩ = .error .attributeError :=
  c10_title_typing.2 ⟨[.int 1], [("Text", [.str "x"])]⟩ [.str "x"] [.str "x"]
    rfl rfl ⟨(.int 1, .str "x"), by decide, rfl⟩
